import Mathlib

/-!
# remote2oss: path derivation and transfer orchestration

A shallow embedding of `main.go` of acicn/remote2oss.

* Go strings are byte sequences (`GoString`).
* The Go standard-library functions that `main.go` calls on strings
  (`regexp.ReplaceAllString`, `strings.ToLower`, `path.Base`, `path.Join`,
  `path.Clean`, `strings.TrimPrefix`, `strings.TrimSuffix`, ...) are
  transcribed from the Go sources of those packages.
* `main` is a function from an environment (the results of the external
  calls: flags, configuration file, HTTP service, object store) and a world
  state (local files, bucket contents) to the final world, the trace of
  events and the exit code.
-/

namespace Remote2oss

set_option maxRecDepth 4096

/-! ## Go strings -/

/-- A Go string: a sequence of bytes, each element one byte value. -/
abbrev GoString := List Nat

/-- UTF-8 encoding of one code point; Go source text is UTF-8. -/
def utf8Encode (c : Nat) : GoString :=
  if c < 0x80 then [c]
  else if c < 0x800 then [0xC0 + c / 0x40, 0x80 + c % 0x40]
  else if c < 0x10000 then [0xE0 + c / 0x1000, 0x80 + c / 0x40 % 0x40, 0x80 + c % 0x40]
  else [0xF0 + c / 0x40000, 0x80 + c / 0x1000 % 0x40, 0x80 + c / 0x40 % 0x40, 0x80 + c % 0x40]

/-- The Go string denoted by the string literal `s`. -/
def go (s : String) : GoString :=
  s.data.flatMap (fun c => utf8Encode c.toNat)

/-! ## unicode/utf8 -/

/-- Constant `utf8.RuneError`, the replacement character U+FFFD. -/
def RuneError : Nat := 0xFFFD

/-- Constant `utf8.RuneSelf`: bytes below it are single-byte runes. -/
def RuneSelf : Nat := 0x80

/-- Table `first` of unicode/utf8, indexed by the first byte of a sequence:
`as = 0xF0` (ASCII), `xx = 0xF1` (invalid), `s1 = 0x02`, `s2 = 0x13`,
`s3 = 0x03`, `s4 = 0x23`, `s5 = 0x34`, `s6 = 0x04`, `s7 = 0x44`. -/
def first (b : Nat) : Nat :=
  if b < 0x80 then 0xF0
  else if b < 0xC2 then 0xF1
  else if b < 0xE0 then 0x02
  else if b = 0xE0 then 0x13
  else if b < 0xED then 0x03
  else if b = 0xED then 0x23
  else if b < 0xF0 then 0x03
  else if b = 0xF0 then 0x34
  else if b < 0xF4 then 0x04
  else if b = 0xF4 then 0x44
  else 0xF1

/-- Table `acceptRanges` of unicode/utf8: the range `(lo, hi)` allowed for the
second byte of a sequence; the entries that Go leaves unset are zero. -/
def acceptRanges (i : Nat) : Nat × Nat :=
  match i with
  | 0 => (0x80, 0xBF)
  | 1 => (0xA0, 0xBF)
  | 2 => (0x80, 0x9F)
  | 3 => (0x90, 0xBF)
  | 4 => (0x80, 0x8F)
  | _ => (0, 0)

/-- Go `utf8.DecodeRuneInString`: the first rune of `s` and its width in bytes;
`(RuneError, 1)` for an invalid encoding, `(RuneError, 0)` for the empty
string. The masks and shifts of the Go code are written arithmetically:
`x & 7` is `x % 8`, `x >> 4` is `x / 16`, `b & 0x3F` is `b % 0x40`, and
`a << 6 | b` is `a * 0x40 + b` since the bit ranges are disjoint. -/
def DecodeRuneInString (s : GoString) : Nat × Nat :=
  match s with
  | [] => (RuneError, 0)
  | s0 :: _ =>
    let x := first s0
    if x ≥ 0xF0 then
      (if x = 0xF1 then RuneError else s0, 1)
    else
      let sz := x % 8
      let accept := acceptRanges (x / 16)
      if s.length < sz then (RuneError, 1)
      else
        let s1 := s.getD 1 0
        if s1 < accept.1 ∨ accept.2 < s1 then (RuneError, 1)
        else if sz ≤ 2 then ((s0 % 0x20) * 0x40 + s1 % 0x40, 2)
        else
          let s2 := s.getD 2 0
          if s2 < 0x80 ∨ 0xBF < s2 then (RuneError, 1)
          else if sz ≤ 3 then
            ((s0 % 0x10) * 0x1000 + (s1 % 0x40) * 0x40 + s2 % 0x40, 3)
          else
            let s3 := s.getD 3 0
            if s3 < 0x80 ∨ 0xBF < s3 then (RuneError, 1)
            else
              ((s0 % 0x08) * 0x40000 + (s1 % 0x40) * 0x1000 + (s2 % 0x40) * 0x40
                + s3 % 0x40, 4)

/-! ## regexp -/

/-- The regexp `badPathCharacters` (main.go, line 22), one negated character
class, as a predicate on runes: true for every rune outside `0-9`, `a-z`,
`A-Z`, `.`, `_`, `/` and `-`. -/
def badPathCharacters (r : Nat) : Bool :=
  !(((0x30 ≤ r) && (r ≤ 0x39)) || ((0x61 ≤ r) && (r ≤ 0x7A)) || ((0x41 ≤ r) && (r ≤ 0x5A))
    || (r == 0x2E) || (r == 0x5F) || (r == 0x2F) || (r == 0x2D))

/-- Method `step` of the regexp input: the rune at the head of the remaining
input and its width; a byte below `RuneSelf` is its own rune, anything else
is decoded as UTF-8 (an invalid byte reads as `RuneError` of width 1). At
the end of the input Go returns the marker `endOfText` with width 0; the
replacement loop never reads it, and the rune is 0 here. -/
def step (s : GoString) : Nat × Nat :=
  match s with
  | [] => (0, 0)
  | c :: _ => if c < RuneSelf then (c, 1) else DecodeRuneInString s

/-- The loop of `Regexp.ReplaceAllString` for a regexp that is one character
class `cls` (every match is exactly one rune) and a replacement `repl`
without `$`: a matching rune is replaced by `repl`, the bytes of any other
rune are copied. `fuel` bounds the number of runes still to be read. -/
def replaceAll (cls : Nat → Bool) (repl : GoString) : Nat → GoString → GoString
  | 0, _ => []
  | _ + 1, [] => []
  | fuel + 1, c :: rest =>
    let rn := step (c :: rest)
    if cls rn.1 then repl ++ replaceAll cls repl fuel ((c :: rest).drop rn.2)
    else (c :: rest).take rn.2 ++ replaceAll cls repl fuel ((c :: rest).drop rn.2)

/-- Go `Regexp.ReplaceAllString(src, repl)` for a one-character-class regexp:
every rune consumes at least one byte, so `src.length` rounds suffice
(`replaceAll_fuel`). -/
def ReplaceAllString (cls : Nat → Bool) (src repl : GoString) : GoString :=
  replaceAll cls repl src.length src

/-! ## strings -/

/-- Go `strings.ToLower`. A string of bytes below `RuneSelf` is lower-cased
byte by byte (returned as is when it has no upper-case letter). For any
other string Go calls `Map(unicode.ToLower, s)`, which reads the Unicode
case tables; that function is the parameter `U`. -/
def ToLower (U : GoString → GoString) (s : GoString) : GoString :=
  if s.all (fun c => c < RuneSelf) then
    if s.any (fun c => (0x41 ≤ c) && (c ≤ 0x5A)) then
      s.map (fun c => if 0x41 ≤ c ∧ c ≤ 0x5A then c + (0x61 - 0x41) else c)
    else s
  else U s

/-- Go `strings.HasPrefix`. -/
def HasPrefix (s pre : GoString) : Bool :=
  decide (s.length ≥ pre.length) && (s.take pre.length == pre)

/-- Go `strings.HasSuffix`. -/
def HasSuffix (s suf : GoString) : Bool :=
  decide (s.length ≥ suf.length) && (s.drop (s.length - suf.length) == suf)

/-- Go `strings.TrimPrefix`: `s` without the leading `pre`, once, if present. -/
def TrimPrefix (s pre : GoString) : GoString :=
  if HasPrefix s pre then s.drop pre.length else s

/-- Go `strings.TrimSuffix`: `s` without the trailing `suf`, once, if present. -/
def TrimSuffix (s suf : GoString) : GoString :=
  if HasSuffix s suf then s.take (s.length - suf.length) else s

/-- Go `strings.Join`: the elements with `sep` between them. -/
def stringsJoin (elems : List GoString) (sep : GoString) : GoString :=
  List.intercalate sep elems

/-! ## path and path/filepath -/

/-- State of the loop of `path.Clean`: `r` is the index of the next byte of
the path to process, `out` the bytes written so far (the lazybuf contents
`buf[0:w]`, so `out.w` is `out.length`), `dotdot` the index in `out` below
which a `..` element must not backtrack. -/
structure CleanState where
  r : Nat
  out : GoString
  dotdot : Nat
deriving DecidableEq

/-- The backtracking loop of the `..` case of `path.Clean`,
`for out.w > dotdot && out.index(out.w) != '/' { out.w-- }`,
started at write index `w` (after the first `out.w--`); `buf` is the buffer
as written before backtracking. Returns the final write index. -/
def backtrack (buf : GoString) (dotdot : Nat) : Nat → Nat
  | 0 => 0
  | w + 1 =>
    if w + 1 > dotdot ∧ buf.getD (w + 1) 0 ≠ 0x2F then backtrack buf dotdot w else w + 1

/-- One iteration of the loop `for r < n` of `path.Clean` (the four cases of
its switch): an empty element, a `.` element, a `..` element, a real
element. -/
def cleanStep (path : GoString) (rooted : Bool) (st : CleanState) : CleanState :=
  let n := path.length
  let r := st.r
  if path.getD r 0 = 0x2F then
    { st with r := r + 1 }
  else if path.getD r 0 = 0x2E ∧ (r + 1 = n ∨ path.getD (r + 1) 0 = 0x2F) then
    { st with r := r + 1 }
  else if path.getD r 0 = 0x2E ∧ path.getD (r + 1) 0 = 0x2E
      ∧ (r + 2 = n ∨ path.getD (r + 2) 0 = 0x2F) then
    if st.out.length > st.dotdot then
      { st with r := r + 2,
                out := st.out.take (backtrack st.out st.dotdot (st.out.length - 1)) }
    else if rooted = false then
      let out1 := (if st.out.length > 0 then st.out ++ [0x2F] else st.out) ++ [0x2E, 0x2E]
      { r := r + 2, out := out1, dotdot := out1.length }
    else
      { st with r := r + 2 }
  else
    let out1 :=
      if (rooted = true ∧ st.out.length ≠ 1) ∨ (rooted = false ∧ st.out.length ≠ 0) then
        st.out ++ [0x2F]
      else st.out
    let elt := (path.drop r).takeWhile (fun c => c != 0x2F)
    { st with r := r + elt.length, out := out1 ++ elt }

/-- The loop `for r < n` of `path.Clean`, at most `fuel` iterations. -/
def cleanLoop (path : GoString) (rooted : Bool) : Nat → CleanState → CleanState
  | 0, st => st
  | fuel + 1, st =>
    if st.r < path.length then cleanLoop path rooted fuel (cleanStep path rooted st) else st

/-- Go `path.Clean`: the shortest path name equivalent to `path` by purely
lexical processing. Every iteration advances `r`, so `path.length`
iterations end the loop (`cleanLoop_done`). -/
def Clean (path : GoString) : GoString :=
  if path = [] then go "."
  else
    let rooted : Bool := path.getD 0 0 == 0x2F
    let st0 : CleanState := if rooted then ⟨1, [0x2F], 1⟩ else ⟨0, [], 0⟩
    let st := cleanLoop path rooted path.length st0
    if st.out.length = 0 then go "." else st.out

/-- Go `path.Base`: the last element of `path`, after removing trailing
slashes; `.` for the empty path, `/` for a path of slashes only. -/
def Base (path : GoString) : GoString :=
  if path = [] then go "."
  else
    let p1 := path.rdropWhile (fun c => c == 0x2F)
    let p2 := (p1.reverse.takeWhile (fun c => c != 0x2F)).reverse
    if p2 = [] then go "/" else p2

/-- Go `path.Join`: the elements from the first non-empty one on, joined by
`/`, then cleaned; the empty string when every element is empty. -/
def Join (elem : List GoString) : GoString :=
  let size := (elem.map List.length).sum
  if size = 0 then []
  else
    Clean (elem.foldl (fun buf e =>
      if buf.length > 0 ∨ e ≠ [] then
        (if buf.length > 0 then buf ++ [0x2F] else buf) ++ e
      else buf) [])

/-- Go `filepath.Join` on a system whose separator is `/` (there
`filepath.Clean` is the algorithm of `path.Clean`): the elements from the
first non-empty one on, joined by `/`, then cleaned. -/
def filepathJoin : List GoString → GoString
  | [] => []
  | e :: rest =>
    if e ≠ [] then Clean (stringsJoin (e :: rest) (go "/")) else filepathJoin rest

/-! ## Errors, configuration, world state -/

/-- The `error` values of a run. -/
inductive GoError
  /-- Value `errors.New("missing argument '-l'")` (main.go, line 77). -/
  | missingArg
  /-- Value `fmt.Errorf("bad code: %d", res.StatusCode)` (main.go, line 136). -/
  | badCode (code : Int)
  /-- A path error of the operating system for a missing file: the errors for
  which `os.IsNotExist` holds. -/
  | notExist (op name : GoString)
  /-- Any other error returned by a library or by the operating system. -/
  | other (msg : GoString)
deriving DecidableEq

/-- The verb `%d` of fmt for an `int`. -/
def itoa (i : Int) : GoString :=
  match i with
  | Int.ofNat n => go (Nat.repr n)
  | Int.negSucc n => go "-" ++ go (Nat.repr (n + 1))

/-- Method `Error()` of an error value. -/
def GoError.Error : GoError → GoString
  | .missingArg => go "missing argument '-l'"
  | .badCode code => go "bad code: " ++ itoa code
  | .notExist op name => op ++ go " " ++ name ++ go ": no such file or directory"
  | .other msg => msg

/-- Go `os.IsNotExist`. -/
def IsNotExist : GoError → Bool
  | .notExist _ _ => true
  | _ => false

/-- Source `Options` (main.go, lines 47-54). -/
structure Options where
  Workspace : GoString
  OSSPublicURL : GoString
  OSSEndpoint : GoString
  OSSAccessKeyID : GoString
  OSSAccessKeySecret : GoString
  OSSBucket : GoString
deriving DecidableEq

/-- The two fields of `url.URL` that `main` reads. -/
structure URL where
  Host : GoString
  Path : GoString
deriving DecidableEq

/-- An HTTP response as `main` uses it: the status code, the bytes the body
stream delivers to `io.Copy`, and the error `io.Copy` ends with after those
bytes (`none` when the stream ends normally). -/
structure Response where
  StatusCode : Int
  Body : GoString
  copyErr : Option GoError

/-- Result of `flag.Parse()` on the command line: the final values of
`optConf` and `optLocation`, or the exit status with which the flag package
itself ends the process (bad usage, `-h`). -/
inductive FlagOutcome
  | parsed (optConf optLocation : GoString)
  | exited (code : Nat)

/-- The world state a run acts on: the local files (contents by path) and the
objects of the bucket (contents by key). -/
structure World where
  files : GoString → Option GoString
  objects : GoString → Option GoString

/-- The environment of a run: the behaviour of the external collaborators
(operating system, flag and JSON packages, OSS SDK, HTTP service) that
`main` consumes, each as the result it returns. -/
structure Env where
  /-- Function `Map(unicode.ToLower, s)`, the Unicode branch of `strings.ToLower`. -/
  unicodeLower : GoString → GoString
  /-- Result of `os.UserHomeDir()`. -/
  UserHomeDir : Except GoError GoString
  /-- Result of `flag.Parse()`, given the default of `-c`. -/
  flagParse : GoString → FlagOutcome
  /-- Function `strings.TrimSpace`. -/
  TrimSpace : GoString → GoString
  /-- Result of `ioutil.ReadFile` on the configuration file. -/
  ReadFile : GoString → Except GoError GoString
  /-- Result of `json.Unmarshal` into `Options`. -/
  Unmarshal : GoString → Except GoError Options
  /-- Constant `oss.Version`. -/
  ossVersion : GoString
  /-- Error of `oss.New(endpoint, accessKeyID, accessKeySecret)`, if any. -/
  ossNew : GoString → GoString → GoString → Option GoError
  /-- Error of `client.Bucket(name)`, if any. -/
  clientBucket : GoString → Option GoError
  /-- Result of `url.Parse`. -/
  urlParse : GoString → Except GoError URL
  /-- A failure of `os.Stat` on a path, if any, whatever the files are. -/
  statErr : GoString → Option GoError
  /-- A failure of `os.OpenFile` on a path, if any. -/
  openErr : GoString → Option GoError
  /-- Result of `http.Get`. -/
  httpGet : GoString → Except GoError Response
  /-- A failure of the upload of a readable local file, if any. -/
  putErr : GoString → GoString → Option GoError

/-- The calls a run makes, in the order it makes them. A `log` event is a
call `log.Println(args...)` with its operands (the logger writes them
separated by spaces, after its time header). -/
inductive Event
  | log (args : List GoString)
  | readFile (name : GoString)
  | stat (name : GoString)
  | openFile (name : GoString)
  | httpGet (url : GoString)
  | copy (name data : GoString)
  | closeBody
  | closeFile (name : GoString)
  | remove (name : GoString)
  | putObject (key name : GoString)
  | osExit (code : Nat)
deriving DecidableEq

/-- A deferred call of `main`. -/
inductive Deferred
  /-- Statement `defer exit(&err)` (main.go, line 63). -/
  | exit
  /-- Statement `defer os.Remove(filename)` (main.go, line 121). -/
  | remove (name : GoString)
  /-- Statement `defer f.Close()` (main.go, line 127). -/
  | closeFile (name : GoString)
  /-- Statement `defer res.Body.Close()` (main.go, line 133). -/
  | closeBody
deriving DecidableEq

/-- State of a run inside `main`: the world, the events so far, and the stack
of deferred calls, the most recently deferred first. -/
structure State where
  world : World
  trace : List Event
  defers : List Deferred

/-- What a finished run leaves: the final world, all events, the exit status. -/
structure Outcome where
  world : World
  trace : List Event
  exitCode : Nat

/-- Go `os.Stat`, its error result: the failure the environment injects, else
a not-exist error when no file is at `name`, else `nil`. -/
def osStat (env : Env) (w : World) (name : GoString) : Option GoError :=
  match env.statErr name with
  | some err => some err
  | none => if (w.files name).isSome then none else some (.notExist (go "stat") name)

/-- Go `os.OpenFile(name, os.O_CREATE|os.O_RDWR, 0640)`: fails as the
environment says, else creates an empty file when none is at `name` and
leaves an existing one as it is (no `O_TRUNC`). -/
def OpenFile (env : Env) (w : World) (name : GoString) : Except GoError World :=
  match env.openErr name with
  | some err => .error err
  | none =>
    match w.files name with
    | some _ => .ok w
    | none => .ok { w with files := fun n => if n = name then some [] else w.files n }

/-- Go `io.Copy(f, body)` on the file just opened: `data` is written from
offset 0 over the contents of the file. -/
def ioCopy (w : World) (name data : GoString) : World :=
  { w with files := fun n =>
      if n = name then some (data ++ ((w.files name).getD []).drop data.length)
      else w.files n }

/-- Go `os.Remove(name)`: afterwards no file is at `name`. -/
def osRemove (w : World) (name : GoString) : World :=
  { w with files := fun n => if n = name then none else w.files n }

/-- Method `bucket.PutObjectFromFile(key, name)` of the OSS SDK: reads the local
file (an error when there is none), then uploads its contents under `key`,
replacing an object already there, unless the upload fails. -/
def PutObjectFromFile (env : Env) (w : World) (key name : GoString) :
    World × Option GoError :=
  match w.files name with
  | none => (w, some (.notExist (go "open") name))
  | some data =>
    match env.putErr key name with
    | some err => (w, some err)
    | none => ({ w with objects := fun k => if k = key then some data else w.objects k }, none)

/-! ## main.go: sanitizePath and the derived names -/

/-- Source `sanitizePath` (main.go, lines 25-27):
`strings.ToLower(badPathCharacters.ReplaceAllString(name, "_"))`. -/
def sanitizePath (U : GoString → GoString) (name : GoString) : GoString :=
  ToLower U (ReplaceAllString badPathCharacters name (go "_"))

/-- The basename `main` derives for the local file (main.go, line 112):
`sanitizePath(path.Base(l.Path))`. -/
def localBasename (U : GoString → GoString) (urlPath : GoString) : GoString :=
  sanitizePath U (Base urlPath)

/-- The local cache path (main.go, line 112):
`filepath.Join(opts.Workspace, sanitizePath(path.Base(l.Path)))`. -/
def localFilename (U : GoString → GoString) (workspace urlPath : GoString) : GoString :=
  filepathJoin [workspace, localBasename U urlPath]

/-- The storage key (main.go, line 145): `path.Join(l.Host, sanitizePath(l.Path))`. -/
def storageKey (U : GoString → GoString) (host urlPath : GoString) : GoString :=
  Join [host, sanitizePath U urlPath]

/-- The public URL that `main` logs (main.go, line 146):
`strings.TrimSuffix(opts.OSSPublicURL, "/") + "/" + strings.TrimPrefix(key, "/")`. -/
def publicURL (ossPublicURL key : GoString) : GoString :=
  TrimSuffix ossPublicURL (go "/") ++ go "/" ++ TrimPrefix key (go "/")

/-! ## main.go: fileExists, exit, main -/

/-- Source `fileExists` (main.go, lines 29-38). -/
def fileExists (env : Env) (w : World) (filename : GoString) : Bool × Option GoError :=
  match osStat env w filename with
  | some err => if IsNotExist err then (false, none) else (false, some err)
  | none => (true, none)

/-- Source `exit` (main.go, lines 40-45), applied to the value of `*err`: with
a non-nil error it logs the error and calls `os.Exit(1)`, which ends the
process (the events and the exit status are returned); with `nil` it
returns to its caller (`none`). -/
def exit (err : Option GoError) : Option (List Event × Nat) :=
  match err with
  | some e => some ([.log [go "exited with error:", e.Error], .osExit 1], 1)
  | none => none

/-- The deferred calls of `main`, run when `main` returns with error variable
`err`, the most recently deferred first. When `exit` ends the process the
remaining deferred calls do not run; when no deferred call is left `main`
has returned and the process ends with status 0. -/
def runDeferred (err : Option GoError) : List Deferred → World → List Event → Outcome
  | [], w, tr => ⟨w, tr, 0⟩
  | .exit :: rest, w, tr =>
    match exit err with
    | some (evs, code) => ⟨w, tr ++ evs, code⟩
    | none => runDeferred err rest w tr
  | .remove name :: rest, w, tr => runDeferred err rest (osRemove w name) (tr ++ [.remove name])
  | .closeFile name :: rest, w, tr => runDeferred err rest w (tr ++ [.closeFile name])
  | .closeBody :: rest, w, tr => runDeferred err rest w (tr ++ [.closeBody])

/-- How the first part of `main` ends. -/
inductive Configured
  /-- The flag package ended the process. -/
  | exited (code : Nat) (trace : List Event)
  /-- A step failed: `main` returns with this error. -/
  | failed (err : GoError) (trace : List Event)
  /-- Options, bucket and URL are ready. -/
  | ready (opts : Options) (l : URL) (optLocation : GoString) (trace : List Event)

/-- Source `main`, lines 65-110: home directory, flags, configuration file,
OSS client and bucket, URL parsing. -/
def main_configure (env : Env) : Configured :=
  match env.UserHomeDir with
  | .error err => .failed err []
  | .ok home =>
    match env.flagParse (filepathJoin [home, go ".remote2oss.json"]) with
    | .exited code => .exited code []
    | .parsed optConf optLocation0 =>
      let optLocation := env.TrimSpace optLocation0
      if optLocation = [] then .failed .missingArg []
      else
        let t0 := [Event.readFile optConf]
        match env.ReadFile optConf with
        | .error err => .failed err t0
        | .ok buf =>
          match env.Unmarshal buf with
          | .error err => .failed err t0
          | .ok opts =>
            let t1 := t0 ++ [Event.log [go "oss go sdk version: ", env.ossVersion]]
            match env.ossNew opts.OSSEndpoint opts.OSSAccessKeyID opts.OSSAccessKeySecret with
            | some err => .failed err t1
            | none =>
              let t2 := t1 ++ [Event.log [go "bucket:", opts.OSSBucket]]
              match env.clientBucket opts.OSSBucket with
              | some err => .failed err t2
              | none =>
                let t3 := t2 ++ [Event.log [go "url:", optLocation]]
                match env.urlParse optLocation with
                | .error err => .failed err t3
                | .ok l => .ready opts l optLocation t3

/-- Source `main`, lines 115-143: the existence check and, when no file is at
`filename`, the download. Returns the state and the value of `err` with
which this part ends (`some` means `main` returns here). -/
def main_fetch (env : Env) (filename optLocation : GoString) (s : State) :
    State × Option GoError :=
  let s1 : State := { s with trace := s.trace ++ [.stat filename] }
  match fileExists env s1.world filename with
  | (_, some err) => (s1, some err)
  | (true, none) => (s1, none)
  | (false, none) =>
    let s2 : State := { s1 with defers := .remove filename :: s1.defers,
                                trace := s1.trace ++ [.openFile filename] }
    match OpenFile env s2.world filename with
    | .error err => (s2, some err)
    | .ok w1 =>
      let s3 : State := { s2 with world := w1, defers := .closeFile filename :: s2.defers,
                                  trace := s2.trace ++ [.httpGet optLocation] }
      match env.httpGet optLocation with
      | .error err => (s3, some err)
      | .ok res =>
        let s4 : State := { s3 with defers := .closeBody :: s3.defers }
        if res.StatusCode ≠ 200 then (s4, some (.badCode res.StatusCode))
        else
          let s5 : State := { s4 with world := ioCopy s4.world filename res.Body,
                                      trace := s4.trace ++ [.copy filename res.Body] }
          (s5, res.copyErr)

/-- Source `main`, lines 145-151: the storage key, the log line with the
public URL, the upload, the line `done`. -/
def main_upload (env : Env) (opts : Options) (l : URL) (filename : GoString) (s : State) :
    State × Option GoError :=
  let key := storageKey env.unicodeLower l.Host l.Path
  let s1 : State :=
    { s with trace := s.trace ++ [.log [go "remote file:", publicURL opts.OSSPublicURL key],
                                  .putObject key filename] }
  match PutObjectFromFile env s1.world key filename with
  | (_, some err) => (s1, some err)
  | (w1, none) => ({ s1 with world := w1, trace := s1.trace ++ [.log [go "done"]] }, none)

/-- Source `main` (main.go, lines 61-152). -/
def main (env : Env) (w : World) : Outcome :=
  match main_configure env with
  | .exited code tr => ⟨w, tr ++ [.osExit code], code⟩
  | .failed err tr => runDeferred (some err) [.exit] w tr
  | .ready opts l optLocation tr =>
    let filename := localFilename env.unicodeLower opts.Workspace l.Path
    let s0 : State := ⟨w, tr ++ [.log [go "local file:", filename]], [.exit]⟩
    match main_fetch env filename optLocation s0 with
    | (s1, some err) => runDeferred (some err) s1.defers s1.world s1.trace
    | (s1, none) =>
      match main_upload env opts l filename s1 with
      | (s2, err) => runDeferred err s2.defers s2.world s2.trace

/-! ## Predicates of the specification and example runs -/

/-- The bytes of a sanitized name: `0-9`, `a-z`, `.`, `_`, `/` and `-`. -/
def isSafeByte (c : Nat) : Bool :=
  ((0x30 ≤ c) && (c ≤ 0x39)) || ((0x61 ≤ c) && (c ≤ 0x7A))
    || (c == 0x2E) || (c == 0x5F) || (c == 0x2F) || (c == 0x2D)

/-- The string `u` with all trailing `/` removed. -/
def trimTrailingSlashes (u : GoString) : GoString :=
  u.rdropWhile (fun c => c == 0x2F)

/-- The string `k` with all leading `/` removed. -/
def trimLeadingSlashes (k : GoString) : GoString :=
  k.dropWhile (fun c => c == 0x2F)

/-- The two parts of a storage key as `path.Join` joins them before cleaning:
the host, `/` and the name, or the name alone when the host is empty. -/
def joinedKey (host name : GoString) : GoString :=
  if host = [] then name else host ++ go "/" ++ name

/-- Two adjacent bytes that are not both `/`. -/
def notBothSlash (a b : Nat) : Prop := ¬ (a = 0x2F ∧ b = 0x2F)

/-- Invariant of the loop of `path.Clean`: the output has no two adjacent
slashes, `dotdot` is inside the output, and neither the output nor its
prefix of length `dotdot` ends in `/`, except for the root `/` itself. -/
def CleanInv (rooted : Bool) (st : CleanState) : Prop :=
  List.Chain' notBothSlash st.out ∧ st.dotdot ≤ st.out.length ∧
  ((st.out.take st.dotdot).getLast? = some 0x2F → rooted = true ∧ st.dotdot = 1) ∧
  (st.out.getLast? = some 0x2F → rooted = true ∧ st.out.length = 1)

/-- Example configuration: workspace `/ws`, public URL prefix with one
trailing slash. -/
def exampleOptions : Options :=
  ⟨go "/ws", go "https://pub.example.com/", go "oss.example.com", go "id", go "secret",
    go "bucket"⟩

/-- The URL of the example of the specification, parsed. -/
def exampleURL : URL := ⟨go "cdn.example.com", go "/Assets/My File.PNG"⟩

/-- The URL of the example of the specification, as given to `-l`. -/
def exampleLocation : GoString := go "http://cdn.example.com/Assets/My File.PNG"

/-- An environment in which every step before the transfer succeeds; the HTTP
service answers `res` and the upload ends as `putErr` says. -/
def exampleEnv (res : Response) (putErr : Option GoError) : Env where
  unicodeLower := fun s => s
  UserHomeDir := .ok (go "/home/u")
  flagParse := fun optConf => .parsed optConf exampleLocation
  TrimSpace := fun s => s
  ReadFile := fun _ => .ok (go "conf")
  Unmarshal := fun _ => .ok exampleOptions
  ossVersion := go "v2.2.9"
  ossNew := fun _ _ _ => none
  clientBucket := fun _ => none
  urlParse := fun _ => .ok exampleURL
  statErr := fun _ => none
  openErr := fun _ => none
  httpGet := fun _ => .ok res
  putErr := fun _ _ => putErr

/-- The events of the first part of `main` in the example environment. -/
def exampleConfigureTrace : List Event :=
  [Event.readFile (go "/home/u/.remote2oss.json"),
   Event.log [go "oss go sdk version: ", go "v2.2.9"],
   Event.log [go "bucket:", go "bucket"],
   Event.log [go "url:", exampleLocation]]

/-- A world without local files and without objects. -/
def emptyWorld : World := ⟨fun _ => none, fun _ => none⟩

/-- A world in which the local cache path of the example already has a file. -/
def cachedWorld : World :=
  ⟨fun n => if n = go "/ws/my_file.png" then some (go "cached") else none, fun _ => none⟩

/-! ## Proofs -/

theorem badPathCharacters_of_ge {r : Nat} (h : 0x80 ≤ r) : badPathCharacters r = true := by
  simp [badPathCharacters]
  omega

theorem badPathCharacters_false_lt {r : Nat} (h : badPathCharacters r = false) : r < 0x80 := by
  by_contra hc
  rw [badPathCharacters_of_ge (by omega)] at h
  cases h

theorem first_of_ge (c x : Nat) (hc : 0x80 ≤ c) (hx : first c = x) :
    x = 0xF1 ∨ (x = 0x02 ∧ 0xC2 ≤ c ∧ c < 0xE0) ∨ (x = 0x13 ∧ c = 0xE0)
      ∨ (x = 0x03 ∧ 0xE1 ≤ c ∧ c ≤ 0xEF) ∨ (x = 0x23 ∧ c = 0xED)
      ∨ (x = 0x34 ∧ c = 0xF0) ∨ (x = 0x04 ∧ 0xF1 ≤ c ∧ c ≤ 0xF3)
      ∨ (x = 0x44 ∧ c = 0xF4) := by
  unfold first at hx
  rw [if_neg (by omega)] at hx
  by_cases h1 : c < 0xC2
  · rw [if_pos h1] at hx; omega
  rw [if_neg h1] at hx
  by_cases h2 : c < 0xE0
  · rw [if_pos h2] at hx; omega
  rw [if_neg h2] at hx
  by_cases h3 : c = 0xE0
  · rw [if_pos h3] at hx; omega
  rw [if_neg h3] at hx
  by_cases h4 : c < 0xED
  · rw [if_pos h4] at hx; omega
  rw [if_neg h4] at hx
  by_cases h5 : c = 0xED
  · rw [if_pos h5] at hx; omega
  rw [if_neg h5] at hx
  by_cases h6 : c < 0xF0
  · rw [if_pos h6] at hx; omega
  rw [if_neg h6] at hx
  by_cases h7 : c = 0xF0
  · rw [if_pos h7] at hx; omega
  rw [if_neg h7] at hx
  by_cases h8 : c < 0xF4
  · rw [if_pos h8] at hx; omega
  rw [if_neg h8] at hx
  by_cases h9 : c = 0xF4
  · rw [if_pos h9] at hx; omega
  rw [if_neg h9] at hx
  omega

theorem decode_bad (c : Nat) (rest : GoString) (hc : 0x80 ≤ c) :
    badPathCharacters (DecodeRuneInString (c :: rest)).1 = true
      ∧ 1 ≤ (DecodeRuneInString (c :: rest)).2 := by
  have hE : badPathCharacters RuneError = true := by decide
  rcases first_of_ge c _ hc rfl with h | ⟨h, h1, h2⟩ | ⟨h, h1⟩ | ⟨h, h1, h2⟩ | ⟨h, h1⟩ | ⟨h, h1⟩
      | ⟨h, h1, h2⟩ | ⟨h, h1⟩ <;>
    simp only [DecodeRuneInString, h, acceptRanges] <;> norm_num <;>
    (try split_ifs) <;>
    first
      | exact hE
      | exact ⟨hE, le_refl _⟩
      | (refine ⟨badPathCharacters_of_ge ?_, by omega⟩; omega)

theorem step_cons_eq (c : Nat) (rest : GoString) :
    step (c :: rest) = if c < RuneSelf then (c, 1) else DecodeRuneInString (c :: rest) := rfl

/-- A rune read by `step` is at least one byte wide, and a rune outside the
class `badPathCharacters` is a single byte below `RuneSelf`. -/
theorem step_cons (c : Nat) (rest : GoString) :
    1 ≤ (step (c :: rest)).2 ∧
      (badPathCharacters (step (c :: rest)).1 = false → step (c :: rest) = (c, 1) ∧ c < 0x80) := by
  rw [step_cons_eq]
  by_cases hc : c < RuneSelf
  · rw [if_pos hc]
    exact ⟨le_refl _, fun _ => ⟨rfl, hc⟩⟩
  · rw [if_neg hc]
    have hd := decode_bad c rest (by unfold RuneSelf at hc; omega)
    refine ⟨hd.2, fun hb => ?_⟩
    rw [hd.1] at hb
    cases hb

theorem replaceAll_cons (cls : Nat → Bool) (repl : GoString) (fuel c : Nat) (rest : GoString) :
    replaceAll cls repl (fuel + 1) (c :: rest)
      = if cls (step (c :: rest)).1 then
          repl ++ replaceAll cls repl fuel ((c :: rest).drop (step (c :: rest)).2)
        else (c :: rest).take (step (c :: rest)).2
          ++ replaceAll cls repl fuel ((c :: rest).drop (step (c :: rest)).2) := rfl

/-- Fuel: `src.length` rounds are enough, more rounds change nothing. -/
theorem replaceAll_fuel (cls : Nat → Bool) (repl : GoString) :
    ∀ (n : Nat) (s : GoString), s.length ≤ n → ∀ f1 f2, n ≤ f1 → n ≤ f2 →
      replaceAll cls repl f1 s = replaceAll cls repl f2 s := by
  intro n
  induction n with
  | zero =>
    intro s hs f1 f2 _ _
    have : s = [] := List.length_eq_zero.mp (Nat.le_zero.mp hs)
    subst this
    cases f1 <;> cases f2 <;> rfl
  | succ n ih =>
    intro s hs f1 f2 h1 h2
    obtain ⟨g1, rfl⟩ : ∃ g, f1 = g + 1 := ⟨f1 - 1, by omega⟩
    obtain ⟨g2, rfl⟩ : ∃ g, f2 = g + 1 := ⟨f2 - 1, by omega⟩
    cases s with
    | nil => rfl
    | cons c rest =>
      have hw := (step_cons c rest).1
      have hlen : ((c :: rest).drop (step (c :: rest)).2).length ≤ n := by
        rw [List.length_drop]
        simp only [List.length_cons] at hs ⊢
        omega
      rw [replaceAll_cons, replaceAll_cons,
        ih _ hlen g1 g2 (by omega) (by omega)]

/-- Every byte `ReplaceAllString` leaves is outside the class. -/
theorem replaceAll_mem (fuel : Nat) :
    ∀ (s : GoString), ∀ b ∈ replaceAll badPathCharacters (go "_") fuel s,
      badPathCharacters b = false := by
  induction fuel with
  | zero => intro s b hb; simp [replaceAll] at hb
  | succ fuel ih =>
    intro s b hb
    cases s with
    | nil => simp [replaceAll] at hb
    | cons c rest =>
      rw [replaceAll_cons] at hb
      by_cases hcls : badPathCharacters (step (c :: rest)).1 = true
      · rw [if_pos hcls] at hb
        rcases List.mem_append.mp hb with h | h
        · have : b = 0x5F := by simpa [go, utf8Encode] using h
          subst this
          decide
        · exact ih _ b h
      · rw [if_neg hcls] at hb
        have hst := (step_cons c rest).2 (by simpa using hcls)
        rcases List.mem_append.mp hb with h | h
        · rw [hst.1] at h
          have : b = c := by simpa using h
          subst this
          rw [hst.1] at hcls
          simpa using hcls
        · exact ih _ b h

theorem safe_of_not_bad_lower (b : Nat) (h : badPathCharacters b = false) :
    isSafeByte (if 0x41 ≤ b ∧ b ≤ 0x5A then b + (0x61 - 0x41) else b) = true := by
  simp only [badPathCharacters, isSafeByte, Bool.not_eq_false', Bool.or_eq_true,
    Bool.and_eq_true, decide_eq_true_eq, beq_iff_eq] at h ⊢
  split_ifs <;> omega

theorem safe_of_not_bad_not_upper (b : Nat) (h : badPathCharacters b = false)
    (hu : ¬ (0x41 ≤ b ∧ b ≤ 0x5A)) : isSafeByte b = true := by
  simp only [badPathCharacters, isSafeByte, Bool.not_eq_false', Bool.or_eq_true,
    Bool.and_eq_true, decide_eq_true_eq, beq_iff_eq] at h ⊢
  omega

theorem not_bad_of_safe (b : Nat) (h : isSafeByte b = true) :
    badPathCharacters b = false ∧ b < 0x80 ∧ ¬ (0x41 ≤ b ∧ b ≤ 0x5A) := by
  simp only [badPathCharacters, isSafeByte, Bool.not_eq_false', Bool.or_eq_true,
    Bool.and_eq_true, decide_eq_true_eq, beq_iff_eq] at h ⊢
  omega

theorem ToLower_safe (U : GoString → GoString) (t : GoString)
    (ht : ∀ b ∈ t, badPathCharacters b = false) : ∀ c ∈ ToLower U t, isSafeByte c = true := by
  have hall : t.all (fun c => decide (c < RuneSelf)) = true := by
    rw [List.all_eq_true]
    intro b hb
    simpa [RuneSelf] using badPathCharacters_false_lt (ht b hb)
  unfold ToLower
  rw [if_pos hall]
  intro c hc
  split at hc
  · obtain ⟨b, hb, rfl⟩ := List.mem_map.mp hc
    exact safe_of_not_bad_lower b (ht b hb)
  · rename_i hany
    refine safe_of_not_bad_not_upper c (ht c hc) ?_
    intro hup
    apply hany
    rw [List.any_eq_true]
    exact ⟨c, hc, by simpa using hup⟩

theorem replaceAll_safe_id (t : GoString) (ht : ∀ b ∈ t, isSafeByte b = true) :
    ∀ fuel, t.length ≤ fuel → replaceAll badPathCharacters (go "_") fuel t = t := by
  induction t with
  | nil => intro fuel _; cases fuel <;> rfl
  | cons c rest ih =>
    intro fuel hf
    obtain ⟨g, rfl⟩ : ∃ g, fuel = g + 1 := ⟨fuel - 1, by simp at hf; omega⟩
    have hc := not_bad_of_safe c (ht c (List.mem_cons_self _ _))
    have hst : step (c :: rest) = (c, 1) := by
      rw [step_cons_eq, if_pos (show c < RuneSelf from hc.2.1)]
    rw [replaceAll_cons, hst]
    simp only [hc.1, Bool.false_eq_true, if_false, List.take_succ_cons, List.take_zero,
      List.drop_succ_cons, List.drop_zero, List.singleton_append]
    rw [ih (fun b hb => ht b (List.mem_cons_of_mem _ hb)) g (by simp at hf; omega)]

theorem ToLower_safe_id (U : GoString → GoString) (t : GoString)
    (ht : ∀ b ∈ t, isSafeByte b = true) : ToLower U t = t := by
  have hall : t.all (fun c => decide (c < RuneSelf)) = true := by
    rw [List.all_eq_true]
    intro b hb
    simpa [RuneSelf] using (not_bad_of_safe b (ht b hb)).2.1
  have hany : ¬ (t.any (fun c => (decide (0x41 ≤ c)) && (decide (c ≤ 0x5A))) = true) := by
    rw [List.any_eq_true]
    rintro ⟨b, hb, hup⟩
    exact (not_bad_of_safe b (ht b hb)).2.2 (by simpa using hup)
  unfold ToLower
  rw [if_pos hall, if_neg hany]

theorem sanitizePath_safe_id (U : GoString → GoString) (t : GoString)
    (ht : ∀ b ∈ t, isSafeByte b = true) : sanitizePath U t = t := by
  unfold sanitizePath ReplaceAllString
  rw [replaceAll_safe_id t ht _ (le_refl _)]
  exact ToLower_safe_id U t ht

theorem backtrack_spec (buf : GoString) (dotdot : Nat) :
    ∀ w, dotdot ≤ w → dotdot ≤ backtrack buf dotdot w ∧ backtrack buf dotdot w ≤ w ∧
      (backtrack buf dotdot w = dotdot ∨ buf.getD (backtrack buf dotdot w) 0 = 0x2F) := by
  intro w
  induction w with
  | zero => intro h; simp [backtrack]; omega
  | succ w ih =>
    intro h
    unfold backtrack
    by_cases hc : w + 1 > dotdot ∧ buf.getD (w + 1) 0 ≠ 0x2F
    · rw [if_pos hc]
      have := ih (by omega)
      omega
    · rw [if_neg hc]
      refine ⟨h, le_refl _, ?_⟩
      by_cases h1 : w + 1 > dotdot
      · right
        by_contra h2
        exact hc ⟨h1, h2⟩
      · left; omega

theorem chain_of_no_slash (l : GoString) (h : ∀ x ∈ l, x ≠ 0x2F) :
    List.Chain' notBothSlash l := by
  induction l with
  | nil => exact List.chain'_nil
  | cons a t ih =>
    rw [List.chain'_cons']
    refine ⟨fun y _ hy => h a (List.mem_cons_self _ _) hy.1, ih (fun x hx => h x (List.mem_cons_of_mem _ hx))⟩

theorem chain_append_slash (out : GoString) (hch : List.Chain' notBothSlash out)
    (hlast : out.getLast? ≠ some 0x2F) : List.Chain' notBothSlash (out ++ [0x2F]) := by
  refine List.Chain'.append hch (List.chain'_singleton _) ?_
  intro x hx y _ hxy
  apply hlast
  rw [Option.mem_def] at hx
  rw [hx, hxy.1]

theorem chain_append_elt (out x : GoString) (hch : List.Chain' notBothSlash out)
    (hx : ∀ b ∈ x, b ≠ 0x2F) : List.Chain' notBothSlash (out ++ x) := by
  refine List.Chain'.append hch (chain_of_no_slash x hx) ?_
  intro a _ b hb hab
  rw [Option.mem_def] at hb
  exact hx b (List.mem_of_mem_head? hb) hab.2

theorem getLast_append_elt (out x : GoString) (hne : x ≠ [])
    (hx : ∀ b ∈ x, b ≠ 0x2F) : (out ++ x).getLast? ≠ some 0x2F := by
  intro h
  rw [List.getLast?_append_of_ne_nil _ hne, List.getLast?_eq_getLast _ hne] at h
  exact hx _ (List.getLast_mem hne) (Option.some.inj h)

theorem elt_spec (path : GoString) (r : Nat) (hr : r < path.length)
    (h : ¬ path.getD r 0 = 0x2F) :
    (path.drop r).takeWhile (fun c => c != 0x2F) ≠ [] ∧
      ∀ b ∈ (path.drop r).takeWhile (fun c => c != 0x2F), b ≠ 0x2F := by
  constructor
  · rw [List.drop_eq_getElem_cons hr]
    rw [List.getD_eq_getElem _ _ hr] at h
    simp [List.takeWhile_cons, h, hr]
  · intro b hb
    have := List.mem_takeWhile_imp hb
    simpa using this

theorem cleanStep_inv (path : GoString) (rooted : Bool) (st : CleanState)
    (hinv : CleanInv rooted st) (hr : st.r < path.length) :
    CleanInv rooted (cleanStep path rooted st) := by
  obtain ⟨hch, hdd, hc1, hc2⟩ := hinv
  unfold cleanStep
  simp only []
  split_ifs with h1 h2 h3 h4 h5 h6 h7
  · exact ⟨hch, hdd, hc1, hc2⟩
  · exact ⟨hch, hdd, hc1, hc2⟩
  · -- a `..` element that backtracks
    obtain ⟨hb1, hb2, hb3⟩ := backtrack_spec st.out st.dotdot (st.out.length - 1) (by omega)
    have hlen : (st.out.take (backtrack st.out st.dotdot (st.out.length - 1))).length
        = backtrack st.out st.dotdot (st.out.length - 1) := by
      rw [List.length_take]; omega
    refine ⟨hch.take _, ?_, ?_, ?_⟩
    · show st.dotdot ≤ _
      rw [hlen]; exact hb1
    · show (List.take st.dotdot (List.take _ st.out)).getLast? = some 0x2F → _
      rw [List.take_take, min_eq_left hb1]
      exact hc1
    · show (List.take _ st.out).getLast? = some 0x2F → rooted = true ∧ _ = 1
      intro hl
      rcases hb3 with hb3 | hb3
      · rw [hb3] at hl ⊢
        have := hc1 hl
        rw [List.length_take]
        exact ⟨this.1, by omega⟩
      · exfalso
        have hlt : backtrack st.out st.dotdot (st.out.length - 1) < st.out.length := by omega
        have hsplit := List.take_append_drop (backtrack st.out st.dotdot (st.out.length - 1)) st.out
        have hch2 := hch
        rw [← hsplit, List.chain'_append] at hch2
        refine hch2.2.2 0x2F hl 0x2F ?_ ⟨rfl, rfl⟩
        rw [Option.mem_def, List.head?_drop, List.getElem?_eq_getElem hlt]
        rw [List.getD_eq_getElem _ _ hlt] at hb3
        rw [hb3]
  · -- a `..` element appended after `/`
    have hl : st.out.getLast? ≠ some 0x2F := by
      intro h; have := (hc2 h).1; rw [h5] at this; cases this
    refine ⟨?_, le_refl _, ?_, ?_⟩
    · exact chain_append_elt _ _ (chain_append_slash _ hch hl) (by simp)
    · show (List.take (List.length _) _).getLast? = some 0x2F → _
      rw [List.take_length]
      intro h
      exact absurd h (getLast_append_elt _ _ (by simp) (by simp))
    · intro h
      exact absurd h (getLast_append_elt _ _ (by simp) (by simp))
  · refine ⟨?_, le_refl _, ?_, ?_⟩
    · exact chain_append_elt _ _ hch (by simp)
    · show (List.take (List.length _) _).getLast? = some 0x2F → _
      rw [List.take_length]
      intro h
      exact absurd h (getLast_append_elt _ _ (by simp) (by simp))
    · intro h
      exact absurd h (getLast_append_elt _ _ (by simp) (by simp))
  · exact ⟨hch, hdd, hc1, hc2⟩
  · -- a real element after `/`
    obtain ⟨hne, hns⟩ := elt_spec path st.r hr h1
    have hl : st.out.getLast? ≠ some 0x2F := by
      intro h
      have := hc2 h
      rcases h7 with h7 | h7
      · exact h7.2 this.2
      · rw [h7.1] at this; cases this.1
    refine ⟨?_, ?_, ?_, ?_⟩
    · exact chain_append_elt _ _ (chain_append_slash _ hch hl) hns
    · show st.dotdot ≤ _
      simp only [List.length_append]; omega
    · show (List.take st.dotdot _).getLast? = some 0x2F → _
      rw [List.append_assoc, List.take_append_of_le_length hdd]
      exact hc1
    · intro h
      exact absurd h (getLast_append_elt _ _ hne hns)
  · obtain ⟨hne, hns⟩ := elt_spec path st.r hr h1
    refine ⟨?_, ?_, ?_, ?_⟩
    · exact chain_append_elt _ _ hch hns
    · show st.dotdot ≤ _
      simp only [List.length_append]; omega
    · show (List.take st.dotdot _).getLast? = some 0x2F → _
      rw [List.take_append_of_le_length hdd]
      exact hc1
    · intro h
      exact absurd h (getLast_append_elt _ _ hne hns)

theorem cleanLoop_inv (path : GoString) (rooted : Bool) :
    ∀ (fuel : Nat) (st : CleanState), CleanInv rooted st →
      CleanInv rooted (cleanLoop path rooted fuel st) := by
  intro fuel
  induction fuel with
  | zero => intro st h; exact h
  | succ fuel ih =>
    intro st h
    unfold cleanLoop
    by_cases hr : st.r < path.length
    · rw [if_pos hr]
      exact ih _ (cleanStep_inv path rooted st h hr)
    · rw [if_neg hr]
      exact h

theorem cleanStep_r (path : GoString) (rooted : Bool) (st : CleanState)
    (hr : st.r < path.length) : st.r < (cleanStep path rooted st).r := by
  unfold cleanStep
  simp only []
  split_ifs with h1 h2 h3 h4 h5
  all_goals first
    | (show st.r < st.r + 1; omega)
    | (show st.r < st.r + 2; omega)
    | (show st.r < st.r + _
       have := (elt_spec path st.r hr h1).1
       have := List.length_pos.mpr this
       omega)

/-- Fuel: `path.length` iterations take the loop of `path.Clean` to its end,
`r = n` or beyond. -/
theorem cleanLoop_done (path : GoString) (rooted : Bool) :
    ∀ (fuel : Nat) (st : CleanState), path.length ≤ st.r + fuel →
      path.length ≤ (cleanLoop path rooted fuel st).r := by
  intro fuel
  induction fuel with
  | zero => intro st h; simpa [cleanLoop] using h
  | succ fuel ih =>
    intro st h
    unfold cleanLoop
    by_cases hr : st.r < path.length
    · rw [if_pos hr]
      have := cleanStep_r path rooted st hr
      exact ih _ (by omega)
    · rw [if_neg hr]
      omega

theorem go_dot : go "." = [0x2E] := by decide

theorem go_slash : go "/" = [0x2F] := by decide

theorem go_slash_slash : go "//" = [0x2F, 0x2F] := by decide

theorem Clean_chain (path : GoString) : List.Chain' notBothSlash (Clean path) := by
  unfold Clean
  by_cases hp : path = []
  · rw [if_pos hp, go_dot]; exact List.chain'_singleton _
  · rw [if_neg hp]
    simp only []
    split_ifs with h1 h2
    · rw [go_dot]; exact List.chain'_singleton _
    · refine (cleanLoop_inv path _ _ _ ?_).1
      exact ⟨List.chain'_singleton _, le_refl _, fun _ => ⟨h1, rfl⟩, fun _ => ⟨h1, rfl⟩⟩
    · rw [go_dot]; exact List.chain'_singleton _
    · refine (cleanLoop_inv path _ _ _ ?_).1
      exact ⟨List.chain'_nil, le_refl _, fun h => by simp at h, fun h => by simp at h⟩

theorem Join_chain (elem : List GoString) : List.Chain' notBothSlash (Join elem) := by
  unfold Join
  simp only []
  split_ifs
  · exact List.chain'_nil
  · exact Clean_chain _

theorem no_double_slash_of_chain (l : GoString) (h : List.Chain' notBothSlash l) :
    ¬ (go "//" <:+: l) := by
  intro hin
  rw [go_slash_slash] at hin
  have := h.infix hin
  rw [List.chain'_pair] at this
  exact this ⟨rfl, rfl⟩

theorem TrimPrefix_slash_of_chain (k : GoString) (h : List.Chain' notBothSlash k) :
    TrimPrefix k (go "/") = k.dropWhile (fun c => c == 0x2F) := by
  unfold TrimPrefix HasPrefix
  rw [go_slash]
  cases k with
  | nil => simp
  | cons c t =>
    by_cases hc : c = 0x2F
    · subst hc
      cases t with
      | nil => simp
      | cons d t2 =>
        have hd : ¬ d = 0x2F := fun hd => (List.chain'_cons.mp h).1 ⟨rfl, hd⟩
        simp [List.dropWhile_cons, hd]
    · simp [List.dropWhile_cons, hc]

theorem TrimSuffix_slash_of_single (u : GoString) (h : ¬ (go "//" <:+ u)) :
    TrimSuffix u (go "/") = u.rdropWhile (fun c => c == 0x2F) := by
  unfold TrimSuffix HasSuffix
  rw [go_slash]
  rw [go_slash_slash] at h
  rcases List.eq_nil_or_concat u with rfl | ⟨v, c, rfl⟩
  · simp
  · rw [List.concat_eq_append] at h ⊢
    by_cases hc : c = 0x2F
    · subst hc
      rw [List.rdropWhile_concat_pos _ _ _ (by simp)]
      have hv : List.rdropWhile (fun c => c == 0x2F) v = v := by
        rcases List.eq_nil_or_concat v with rfl | ⟨v2, d, rfl⟩
        · simp
        · rw [List.concat_eq_append] at h ⊢
          have hd : ¬ d = 0x2F := by
            intro hd
            subst hd
            exact h ⟨v2, by simp⟩
          rw [List.rdropWhile_concat_neg _ _ _ (by simpa using hd)]
      rw [hv]
      simp
    · rw [List.rdropWhile_concat_neg _ _ _ (by simpa using hc)]
      simp [hc]

theorem replaceAll_ascii (s : GoString) :
    (ReplaceAllString badPathCharacters s (go "_")).all (fun c => decide (c < RuneSelf)) = true := by
  rw [List.all_eq_true]
  intro b hb
  simpa [RuneSelf] using badPathCharacters_false_lt (replaceAll_mem _ s b hb)

/-- The Unicode branch of `strings.ToLower` is never taken by `sanitizePath`:
its result does not depend on `U`. -/
theorem sanitizePath_congr (U V : GoString → GoString) (s : GoString) :
    sanitizePath U s = sanitizePath V s := by
  unfold sanitizePath ToLower
  rw [if_pos (replaceAll_ascii s), if_pos (replaceAll_ascii s)]


theorem cleanLoop_stable (path : GoString) (rooted : Bool) (fuel : Nat) (st : CleanState)
    (h : path.length ≤ st.r) : cleanLoop path rooted fuel st = st := by
  cases fuel with
  | zero => rfl
  | succ fuel =>
    unfold cleanLoop
    rw [if_neg (by omega)]

theorem storageKey_congr (U V : GoString → GoString) (h p : GoString) :
    storageKey U h p = storageKey V h p := by
  unfold storageKey
  rw [sanitizePath_congr U V]

theorem localBasename_congr (U V : GoString → GoString) (p : GoString) :
    localBasename U p = localBasename V p := by
  unfold localBasename
  rw [sanitizePath_congr U V]

theorem storageKey_chain (U : GoString → GoString) (h p : GoString) :
    List.Chain' notBothSlash (storageKey U h p) :=
  Join_chain _

theorem Join_pair (a b : GoString) :
    Join [a, b] = if a = [] ∧ b = [] then [] else Clean (joinedKey a b) := by
  unfold Join joinedKey
  cases a with
  | nil =>
    cases b with
    | nil => simp
    | cons y ys => simp
  | cons x xs =>
    simp [go_slash]

theorem configure_trace (env : Env) (opts : Options) (l : URL) (optLocation : GoString)
    (tr : List Event) (h : main_configure env = .ready opts l optLocation tr) :
    ∀ ev ∈ tr, (∃ n, ev = Event.readFile n) ∨ (∃ a b, ev = Event.log [a, b]) := by
  unfold main_configure at h
  repeat' split at h
  all_goals (try simp only [] at h)
  all_goals (try split_ifs at h)
  all_goals (try (repeat' split at h))
  all_goals cases h
  all_goals simp

theorem put_files (env : Env) (w : World) (key name : GoString) :
    (PutObjectFromFile env w key name).1.files = w.files := by
  unfold PutObjectFromFile
  split
  · rfl
  · split <;> rfl

theorem example_configure (res : Response) (putErr : Option GoError) :
    main_configure (exampleEnv res putErr)
      = .ready exampleOptions exampleURL exampleLocation exampleConfigureTrace := by
  rfl

theorem example_filename :
    localFilename (fun s => s) exampleOptions.Workspace exampleURL.Path = go "/ws/my_file.png" := by
  decide

/-! ## The claims -/

/-- C1. For every input string `s`, every byte of `sanitizePath(s)` is an
ASCII digit, a lower-case ASCII letter, `.`, `_`, `/` or `-`. -/
theorem sanitizePath_charset (U : GoString → GoString) (s : GoString) :
    ∀ c ∈ sanitizePath U s, isSafeByte c = true :=
  ToLower_safe U _ (replaceAll_mem _ s)

/-- Witness of C1: a string with a two-byte rune, a space, a tab, an invalid
byte and upper-case letters; its sanitized form is `__x__q.png`, and the
byte `q` of it is safe. -/
theorem sanitizePath_charset_witness :
    sanitizePath (fun s => s) (go "É x" ++ [0x09, 0xFF] ++ go "Q.PNG") = go "__x__q.png" ∧
      0x71 ∈ sanitizePath (fun s => s) (go "É x" ++ [0x09, 0xFF] ++ go "Q.PNG") ∧
      isSafeByte 0x71 = true :=
  ⟨by decide, by decide,
    sanitizePath_charset (fun s => s) (go "É x" ++ [0x09, 0xFF] ++ go "Q.PNG") 0x71 (by decide)⟩

/-- C2. `sanitizePath` is idempotent, and it returns unchanged every string
whose bytes are all digits, lower-case letters, `.`, `_`, `/` or `-`. -/
theorem sanitizePath_idempotent (U : GoString → GoString) :
    (∀ s : GoString, sanitizePath U (sanitizePath U s) = sanitizePath U s) ∧
      (∀ t : GoString, (∀ b ∈ t, isSafeByte b = true) → sanitizePath U t = t) :=
  ⟨fun s => sanitizePath_safe_id U _ (ToLower_safe U _ (replaceAll_mem _ s)),
   fun t ht => sanitizePath_safe_id U t ht⟩

/-- Witness of C2: a string of safe bytes, returned unchanged. -/
theorem sanitizePath_idempotent_witness :
    (∀ b ∈ go "a/b_c-1.txt", isSafeByte b = true) ∧
      sanitizePath (fun s => s) (go "a/b_c-1.txt") = go "a/b_c-1.txt" :=
  ⟨by decide, (sanitizePath_idempotent (fun s => s)).2 _ (by decide)⟩

/-- C3, as the code computes it: for host `cdn.example.com` and path
`/Assets/My File.PNG` the storage key is `cdn.example.com/assets/my_file.png`;
the `/` of the path is kept, not replaced by `_`. -/
theorem storageKey_example (U : GoString → GoString) :
    storageKey U (go "cdn.example.com") (go "/Assets/My File.PNG")
      = go "cdn.example.com/assets/my_file.png" := by
  rw [storageKey_congr U (fun s => s)]
  decide

/-- Counterexample to C3 as stated: the key of the example is
`cdn.example.com/assets/my_file.png`, which is not
`cdn.example.com/_assets/my_file.png`. -/
theorem storageKey_example_not_claimed :
    (∀ U : GoString → GoString,
        storageKey U (go "cdn.example.com") (go "/Assets/My File.PNG")
          = go "cdn.example.com/assets/my_file.png") ∧
      go "cdn.example.com/assets/my_file.png" ≠ go "cdn.example.com/_assets/my_file.png" := by
  refine ⟨fun U => ?_, by decide⟩
  rw [storageKey_congr U (fun s => s)]
  decide

/-- C4, amended: for every public URL prefix `u` that does not end in two
slashes and every storage key produced by `main`, the reported URL is `u`
without its trailing slashes, one `/`, and the key without its leading
slashes. -/
theorem publicURL_single_separator (U : GoString → GoString) (u h p : GoString)
    (hu : ¬ (go "//" <:+ u)) :
    publicURL u (storageKey U h p)
      = trimTrailingSlashes u ++ go "/" ++ trimLeadingSlashes (storageKey U h p) := by
  unfold publicURL trimTrailingSlashes trimLeadingSlashes
  rw [TrimSuffix_slash_of_single u hu, TrimPrefix_slash_of_chain _ (storageKey_chain U h p)]

/-- Witness of C4, amended: the prefix `https://pub.example.com/` and the
key of host `cdn.example.com`, path `/a`. -/
theorem publicURL_single_separator_witness :
    ¬ (go "//" <:+ go "https://pub.example.com/") ∧
      publicURL (go "https://pub.example.com/")
          (storageKey (fun s => s) (go "cdn.example.com") (go "/a"))
        = trimTrailingSlashes (go "https://pub.example.com/") ++ go "/"
            ++ trimLeadingSlashes (storageKey (fun s => s) (go "cdn.example.com") (go "/a")) :=
  ⟨by decide, publicURL_single_separator _ _ _ _ (by decide)⟩

/-- Counterexample to C4 as stated: for the prefix `http://x//` the reported
URL is `http://x//h/a`, with two slashes at the join, while the prefix
without trailing slashes, `/` and the key give `http://x/h/a`. -/
theorem publicURL_two_trailing_slashes :
    (∀ U : GoString → GoString,
        publicURL (go "http://x//") (storageKey U (go "h") (go "/a")) = go "http://x//h/a") ∧
      (∀ U : GoString → GoString,
        trimTrailingSlashes (go "http://x//") ++ go "/"
            ++ trimLeadingSlashes (storageKey U (go "h") (go "/a")) = go "http://x/h/a") ∧
      go "http://x//h/a" ≠ go "http://x/h/a" := by
  refine ⟨fun U => ?_, fun U => ?_, by decide⟩
  · rw [storageKey_congr U (fun s => s)]
    decide
  · rw [storageKey_congr U (fun s => s)]
    decide

/-- C5. In every run of `main` in which `fileExists` reports a file at the
derived local cache path, no HTTP GET is issued, the local file is neither
opened, written nor removed, the local files are left as they were, and
right after the existence check the run logs the public URL and uploads
that file under the derived storage key. -/
theorem main_cached_skips_download (env : Env) (w : World) (opts : Options) (l : URL)
    (optLocation : GoString) (tr : List Event)
    (hcfg : main_configure env = .ready opts l optLocation tr)
    (hfe : fileExists env w (localFilename env.unicodeLower opts.Workspace l.Path)
      = (true, none)) :
    (∀ u, Event.httpGet u ∉ (main env w).trace) ∧
    (∀ n, Event.openFile n ∉ (main env w).trace) ∧
    (∀ n d, Event.copy n d ∉ (main env w).trace) ∧
    (∀ n, Event.remove n ∉ (main env w).trace) ∧
    (∃ post, (main env w).trace =
      tr ++ [Event.log [go "local file:", localFilename env.unicodeLower opts.Workspace l.Path],
             Event.stat (localFilename env.unicodeLower opts.Workspace l.Path),
             Event.log [go "remote file:",
               publicURL opts.OSSPublicURL (storageKey env.unicodeLower l.Host l.Path)],
             Event.putObject (storageKey env.unicodeLower l.Host l.Path)
               (localFilename env.unicodeLower opts.Workspace l.Path)] ++ post) ∧
    (main env w).world.files = w.files := by
  have htr := configure_trace env opts l optLocation tr hcfg
  have hpf := put_files env w (storageKey env.unicodeLower l.Host l.Path)
    (localFilename env.unicodeLower opts.Workspace l.Path)
  unfold main
  rw [hcfg]
  simp only [main_fetch, hfe, main_upload]
  rcases hput : PutObjectFromFile env w (storageKey env.unicodeLower l.Host l.Path)
    (localFilename env.unicodeLower opts.Workspace l.Path) with ⟨w2, _ | e⟩
  · rw [hput] at hpf
    simp only [runDeferred, exit]
    refine ⟨?_, ?_, ?_, ?_, ⟨[Event.log [go "done"]], by simp⟩, hpf⟩
    all_goals
      intros
      intro hmem
      simp at hmem
      rcases htr _ hmem with ⟨_, h⟩ | ⟨_, _, h⟩ <;> cases h
  · simp only [runDeferred, exit]
    refine ⟨?_, ?_, ?_, ?_, ⟨[Event.log [go "exited with error:", e.Error], Event.osExit 1],
      by simp⟩, trivial⟩
    all_goals
      intros
      intro hmem
      simp at hmem
      rcases htr _ hmem with ⟨_, h⟩ | ⟨_, _, h⟩ <;> cases h

/-- Witness of C5: the example run on a world whose cache path has a file. -/
theorem main_cached_skips_download_witness :
    main_configure (exampleEnv ⟨200, go "data", none⟩ none)
        = .ready exampleOptions exampleURL exampleLocation exampleConfigureTrace ∧
      fileExists (exampleEnv ⟨200, go "data", none⟩ none) cachedWorld (go "/ws/my_file.png")
        = (true, none) ∧
      (∀ u, Event.httpGet u ∉ (main (exampleEnv ⟨200, go "data", none⟩ none) cachedWorld).trace) ∧
      (main (exampleEnv ⟨200, go "data", none⟩ none) cachedWorld).world.files
        = cachedWorld.files :=
  have h := main_cached_skips_download (exampleEnv ⟨200, go "data", none⟩ none) cachedWorld
    exampleOptions exampleURL exampleLocation exampleConfigureTrace
    (example_configure _ _) (by rw [show (exampleEnv ⟨200, go "data", none⟩ none).unicodeLower
      = (fun s => s) from rfl, example_filename]; decide)
  ⟨example_configure _ _, by decide, h.1, h.2.2.2.2.2⟩

/-- C6. In every run of `main` in which no file is at the local cache path
and the HTTP GET returns a status code `c` other than 200, the run ends
with the error `bad code: c` and exit status 1, no upload is attempted, the
bucket is unchanged and no file is at the local cache path afterwards: the
deferred `os.Remove` runs before `exit`. -/
theorem main_bad_status_cleans_up (env : Env) (w : World) (opts : Options) (l : URL)
    (optLocation : GoString) (tr : List Event) (res : Response)
    (hcfg : main_configure env = .ready opts l optLocation tr)
    (hfe : fileExists env w (localFilename env.unicodeLower opts.Workspace l.Path)
      = (false, none))
    (hopen : env.openErr (localFilename env.unicodeLower opts.Workspace l.Path) = none)
    (hget : env.httpGet optLocation = .ok res)
    (hcode : res.StatusCode ≠ 200) :
    (main env w).exitCode = 1 ∧
    (main env w).trace =
      tr ++ [Event.log [go "local file:", localFilename env.unicodeLower opts.Workspace l.Path],
             Event.stat (localFilename env.unicodeLower opts.Workspace l.Path),
             Event.openFile (localFilename env.unicodeLower opts.Workspace l.Path),
             Event.httpGet optLocation,
             Event.closeBody,
             Event.closeFile (localFilename env.unicodeLower opts.Workspace l.Path),
             Event.remove (localFilename env.unicodeLower opts.Workspace l.Path),
             Event.log [go "exited with error:", go "bad code: " ++ itoa res.StatusCode],
             Event.osExit 1] ∧
    (∀ k n, Event.putObject k n ∉ (main env w).trace) ∧
    (main env w).world.files (localFilename env.unicodeLower opts.Workspace l.Path) = none ∧
    (main env w).world.objects = w.objects := by
  have htr := configure_trace env opts l optLocation tr hcfg
  unfold main
  rw [hcfg]
  simp only [main_fetch, hfe, OpenFile, hopen]
  cases hf : w.files (localFilename env.unicodeLower opts.Workspace l.Path) <;>
    simp only [hget, hcode, ne_eq, not_false_eq_true, if_true, runDeferred, exit, osRemove,
      GoError.Error] <;>
    refine ⟨trivial, by simp, ?_, by simp, trivial⟩ <;>
    · intro k n hmem
      simp at hmem
      rcases htr _ hmem with ⟨_, h⟩ | ⟨_, _, h⟩ <;> cases h

/-- Witness of C6: the example run with a 404 answer on the empty world. -/
theorem main_bad_status_cleans_up_witness :
    main_configure (exampleEnv ⟨404, go "nope", none⟩ none)
        = .ready exampleOptions exampleURL exampleLocation exampleConfigureTrace ∧
      fileExists (exampleEnv ⟨404, go "nope", none⟩ none) emptyWorld
        (localFilename (fun s => s) exampleOptions.Workspace exampleURL.Path) = (false, none) ∧
      (exampleEnv ⟨404, go "nope", none⟩ none).openErr
        (localFilename (fun s => s) exampleOptions.Workspace exampleURL.Path) = none ∧
      (exampleEnv ⟨404, go "nope", none⟩ none).httpGet exampleLocation
        = .ok ⟨404, go "nope", none⟩ ∧
      (404 : Int) ≠ 200 ∧
      (main (exampleEnv ⟨404, go "nope", none⟩ none) emptyWorld).exitCode = 1 ∧
      (main (exampleEnv ⟨404, go "nope", none⟩ none) emptyWorld).world.files
        (localFilename (fun s => s) exampleOptions.Workspace exampleURL.Path) = none :=
  have h := main_bad_status_cleans_up (exampleEnv ⟨404, go "nope", none⟩ none) emptyWorld
    exampleOptions exampleURL exampleLocation exampleConfigureTrace ⟨404, go "nope", none⟩
    (example_configure _ _) (by decide) rfl rfl (by decide)
  ⟨example_configure _ _, by decide, rfl, rfl, by decide, h.1, h.2.2.2.1⟩

theorem fetch_ok_cases (env : Env) (f loc : GoString) (s s1 : State)
    (h : main_fetch env f loc s = (s1, none)) :
    s1 = ⟨s.world, s.trace ++ [Event.stat f], s.defers⟩ ∨
    ∃ w1 res, env.httpGet loc = .ok res ∧ OpenFile env s.world f = .ok w1 ∧
      s1 = ⟨ioCopy w1 f res.Body,
            s.trace ++ [Event.stat f, Event.openFile f, Event.httpGet loc, Event.copy f res.Body],
            Deferred.closeBody :: Deferred.closeFile f :: Deferred.remove f :: s.defers⟩ := by
  unfold main_fetch at h
  simp only [] at h
  repeat' split at h
  all_goals (simp only [Prod.mk.injEq] at h; obtain ⟨hs, he⟩ := h)
  all_goals first
    | (cases he; done)
    | (left; exact hs.symm)
    | (right; subst hs; exact ⟨_, _, ‹_›, ‹_›, by simp⟩)

theorem fetch_absent_defers (env : Env) (f loc : GoString) (s : State)
    (hfe : fileExists env s.world f = (false, none)) :
    ∃ ds, (main_fetch env f loc s).1.defers = ds ++ Deferred.remove f :: s.defers ∧
      ∀ d ∈ ds, d ≠ Deferred.exit := by
  unfold main_fetch
  simp only [hfe]
  repeat' split
  all_goals first
    | exact ⟨[], rfl, by simp⟩
    | exact ⟨[Deferred.closeFile f], rfl, by simp⟩
    | exact ⟨[Deferred.closeBody, Deferred.closeFile f], rfl, by simp⟩

theorem runDeferred_files_none (err : Option GoError) (f : GoString) :
    ∀ (ds : List Deferred) (w : World) (t : List Event), w.files f = none →
      (runDeferred err ds w t).world.files f = none := by
  intro ds
  induction ds with
  | nil => intro w t h; exact h
  | cons d ds ih =>
    intro w t h
    cases d with
    | exit =>
      cases err with
      | none => exact ih w t h
      | some e => exact h
    | remove n =>
      refine ih _ _ ?_
      simp only [osRemove]
      split_ifs <;> simp [h]
    | closeFile n => exact ih _ _ h
    | closeBody => exact ih _ _ h

theorem runDeferred_removes (err : Option GoError) (f : GoString) (rest : List Deferred) :
    ∀ (ds : List Deferred), (∀ d ∈ ds, d ≠ Deferred.exit) → ∀ (w : World) (t : List Event),
      (runDeferred err (ds ++ Deferred.remove f :: rest) w t).world.files f = none := by
  intro ds
  induction ds with
  | nil =>
    intro _ w t
    exact runDeferred_files_none err f rest _ _ (by simp [osRemove])
  | cons d ds ih =>
    intro hne w t
    have hds : ∀ d ∈ ds, d ≠ Deferred.exit := fun d hd => hne d (List.mem_cons_of_mem _ hd)
    cases d with
    | exit => exact absurd rfl (hne _ (List.mem_cons_self _ _))
    | remove n => exact ih hds _ _
    | closeFile n => exact ih hds _ _
    | closeBody => exact ih hds _ _

theorem upload_defers (env : Env) (opts : Options) (l : URL) (f : GoString) (s : State) :
    (main_upload env opts l f s).1.defers = s.defers := by
  unfold main_upload
  simp only []
  split <;> rfl

/-- C7, amended: the downloaded file is temporary. In every run of `main` in
which no file was at the local cache path, no file is there when the
process ends, with or without an error: the deferred `os.Remove` runs on
every return. In particular, when the download returned 200 and was fully
copied and the upload succeeded, the run ends with status 0 after removing
the file it downloaded. -/
theorem main_download_always_removed (env : Env) (w : World) (opts : Options) (l : URL)
    (optLocation : GoString) (tr : List Event)
    (hcfg : main_configure env = .ready opts l optLocation tr)
    (hfe : fileExists env w (localFilename env.unicodeLower opts.Workspace l.Path)
      = (false, none)) :
    (main env w).world.files (localFilename env.unicodeLower opts.Workspace l.Path) = none ∧
    (∀ res : Response,
      env.openErr (localFilename env.unicodeLower opts.Workspace l.Path) = none →
      env.httpGet optLocation = .ok res → res.StatusCode = 200 → res.copyErr = none →
      env.putErr (storageKey env.unicodeLower l.Host l.Path)
        (localFilename env.unicodeLower opts.Workspace l.Path) = none →
      (main env w).exitCode = 0 ∧
      (main env w).trace =
        tr ++ [Event.log [go "local file:", localFilename env.unicodeLower opts.Workspace l.Path],
               Event.stat (localFilename env.unicodeLower opts.Workspace l.Path),
               Event.openFile (localFilename env.unicodeLower opts.Workspace l.Path),
               Event.httpGet optLocation,
               Event.copy (localFilename env.unicodeLower opts.Workspace l.Path) res.Body,
               Event.log [go "remote file:",
                 publicURL opts.OSSPublicURL (storageKey env.unicodeLower l.Host l.Path)],
               Event.putObject (storageKey env.unicodeLower l.Host l.Path)
                 (localFilename env.unicodeLower opts.Workspace l.Path),
               Event.log [go "done"],
               Event.closeBody,
               Event.closeFile (localFilename env.unicodeLower opts.Workspace l.Path),
               Event.remove (localFilename env.unicodeLower opts.Workspace l.Path)]) := by
  constructor
  · obtain ⟨ds, hds, hne⟩ := fetch_absent_defers env
      (localFilename env.unicodeLower opts.Workspace l.Path) optLocation
      ⟨w, tr ++ [Event.log [go "local file:",
        localFilename env.unicodeLower opts.Workspace l.Path]], [Deferred.exit]⟩ hfe
    unfold main
    rw [hcfg]
    simp only []
    rcases hfetch : main_fetch env (localFilename env.unicodeLower opts.Workspace l.Path)
      optLocation ⟨w, tr ++ [Event.log [go "local file:",
        localFilename env.unicodeLower opts.Workspace l.Path]], [Deferred.exit]⟩
      with ⟨s1, _ | e⟩
    · rw [hfetch] at hds
      simp only []
      rw [upload_defers, hds]
      exact runDeferred_removes _ _ _ ds hne _ _
    · rw [hfetch] at hds
      simp only [] at hds ⊢
      rw [hds]
      exact runDeferred_removes _ _ _ ds hne _ _
  · intro res hopen hget hcode hcopy hput
    unfold main
    rw [hcfg]
    cases hf : w.files (localFilename env.unicodeLower opts.Workspace l.Path) <;>
      simp [main_fetch, hfe, OpenFile, hopen, hf, hget, hcode, hcopy, main_upload,
        PutObjectFromFile, ioCopy, hput, runDeferred, exit]

/-- Witness of C7, amended: the successful example run on the empty world. -/
theorem main_download_always_removed_witness :
    main_configure (exampleEnv ⟨200, go "data", none⟩ none)
        = .ready exampleOptions exampleURL exampleLocation exampleConfigureTrace ∧
      fileExists (exampleEnv ⟨200, go "data", none⟩ none) emptyWorld
        (localFilename (fun s => s) exampleOptions.Workspace exampleURL.Path) = (false, none) ∧
      (main (exampleEnv ⟨200, go "data", none⟩ none) emptyWorld).world.files
        (localFilename (fun s => s) exampleOptions.Workspace exampleURL.Path) = none ∧
      (main (exampleEnv ⟨200, go "data", none⟩ none) emptyWorld).exitCode = 0 :=
  have h := main_download_always_removed (exampleEnv ⟨200, go "data", none⟩ none) emptyWorld
    exampleOptions exampleURL exampleLocation exampleConfigureTrace
    (example_configure _ _) (by decide)
  ⟨example_configure _ _, by decide, h.1, (h.2 ⟨200, go "data", none⟩ rfl rfl rfl rfl rfl).1⟩

/-- Counterexample to C7 as stated: a run in which no file was at the local
cache path, the download returned 200 and was copied, and the upload
succeeded (exit status 0, the object is in the bucket); no file is at the
local cache path when the process ends, and a second run on the resulting
world issues the HTTP GET again. -/
theorem main_success_removes_download :
    fileExists (exampleEnv ⟨200, go "data", none⟩ none) emptyWorld (go "/ws/my_file.png")
        = (false, none) ∧
      Event.copy (go "/ws/my_file.png") (go "data")
        ∈ (main (exampleEnv ⟨200, go "data", none⟩ none) emptyWorld).trace ∧
      (main (exampleEnv ⟨200, go "data", none⟩ none) emptyWorld).exitCode = 0 ∧
      (main (exampleEnv ⟨200, go "data", none⟩ none) emptyWorld).world.objects
        (go "cdn.example.com/assets/my_file.png") = some (go "data") ∧
      (main (exampleEnv ⟨200, go "data", none⟩ none) emptyWorld).world.files
        (go "/ws/my_file.png") = none ∧
      Event.httpGet exampleLocation
        ∈ (main (exampleEnv ⟨200, go "data", none⟩ none)
            (main (exampleEnv ⟨200, go "data", none⟩ none) emptyWorld).world).trace := by
  decide

/-- C8, amended: the storage key is normalized by `path.Join`. For every URL
host `h` and URL path `p` the key is `path.Clean` of `h`, `/` and
`sanitizePath(p)` (of `sanitizePath(p)` alone when `h` is empty, and empty
when both are empty), and it never contains two adjacent slashes. -/
theorem storageKey_cleaned (U : GoString → GoString) (h p : GoString) :
    storageKey U h p
        = (if h = [] ∧ sanitizePath U p = [] then []
           else Clean (joinedKey h (sanitizePath U p))) ∧
      ¬ (go "//" <:+: storageKey U h p) :=
  ⟨Join_pair _ _, no_double_slash_of_chain _ (storageKey_chain U h p)⟩

/-- Counterexample to C8 as stated: host `h` and path `/a/../../b` yield the
key `b`, which does not start with `h`; host `h` and path `//a//b` yield
`h/a/b`, without the repeated slashes of the sanitized path. -/
theorem storageKey_dotdot_drops_host :
    (∀ U : GoString → GoString, storageKey U (go "h") (go "/a/../../b") = go "b") ∧
      HasPrefix (go "b") (go "h") = false ∧
      (∀ U : GoString → GoString, sanitizePath U (go "//a//b") = go "//a//b") ∧
      (∀ U : GoString → GoString, storageKey U (go "h") (go "//a//b") = go "h/a/b") := by
  refine ⟨fun U => ?_, by decide, fun U => ?_, fun U => ?_⟩
  · rw [storageKey_congr U (fun s => s)]
    decide
  · rw [sanitizePath_congr U (fun s => s)]
    decide
  · rw [storageKey_congr U (fun s => s)]
    decide

/-- C9, as the code computes it: for a URL whose path component is empty the
basename `sanitizePath(path.Base(l.Path))` is `.`, since `path.Base` of the
empty path is `.`. -/
theorem localBasename_empty_path (U : GoString → GoString) :
    localBasename U (go "") = go "." := by
  rw [localBasename_congr U (fun s => s)]
  decide

/-- Counterexample to C9 as stated: the basename derived from the empty path
is `.`, not the empty string. -/
theorem localBasename_empty_path_not_empty :
    (∀ U : GoString → GoString, localBasename U (go "") = go ".") ∧ go "." ≠ go "" := by
  refine ⟨fun U => ?_, by decide⟩
  rw [localBasename_congr U (fun s => s)]
  decide

/-- C10, amended: in every run of `main` that reaches the upload, the public
URL line is logged immediately before `bucket.PutObjectFromFile` is called,
so before the upload has succeeded, and no upload was attempted earlier. When
the upload succeeds the run logs `done` next and ends with status 0; when
it fails with an error, `done` is never logged and the run ends by logging
that error and exiting with status 1. -/
theorem main_logs_url_before_upload (env : Env) (w : World) (opts : Options) (l : URL)
    (optLocation : GoString) (tr : List Event) (s1 : State)
    (hcfg : main_configure env = .ready opts l optLocation tr)
    (hfetch : main_fetch env (localFilename env.unicodeLower opts.Workspace l.Path) optLocation
      ⟨w, tr ++ [Event.log [go "local file:",
        localFilename env.unicodeLower opts.Workspace l.Path]], [Deferred.exit]⟩ = (s1, none)) :
    ∃ post, (main env w).trace =
        s1.trace ++ [Event.log [go "remote file:",
                       publicURL opts.OSSPublicURL (storageKey env.unicodeLower l.Host l.Path)],
                     Event.putObject (storageKey env.unicodeLower l.Host l.Path)
                       (localFilename env.unicodeLower opts.Workspace l.Path)] ++ post ∧
      (∀ k n, Event.putObject k n ∉ s1.trace) ∧
      ((PutObjectFromFile env s1.world (storageKey env.unicodeLower l.Host l.Path)
          (localFilename env.unicodeLower opts.Workspace l.Path)).2 = none →
        (main env w).exitCode = 0 ∧ post.head? = some (Event.log [go "done"])) ∧
      (∀ e, (PutObjectFromFile env s1.world (storageKey env.unicodeLower l.Host l.Path)
          (localFilename env.unicodeLower opts.Workspace l.Path)).2 = some e →
        (main env w).exitCode = 1 ∧ Event.log [go "done"] ∉ (main env w).trace ∧
        [Event.log [go "exited with error:", e.Error], Event.osExit 1] <:+ post) := by
  have htr := configure_trace env opts l optLocation tr hcfg
  have hnp : ∀ k n, Event.putObject k n ∉ tr := by
    intro k n hmem
    rcases htr _ hmem with ⟨_, h⟩ | ⟨_, _, h⟩ <;> cases h
  have hnd : Event.log [go "done"] ∉ tr := by
    intro hmem
    rcases htr _ hmem with ⟨_, h⟩ | ⟨_, _, h⟩ <;> cases h
  unfold main
  rw [hcfg]
  simp only [hfetch, main_upload]
  rcases fetch_ok_cases _ _ _ _ _ hfetch with hs | ⟨w1, res, _, _, hs⟩ <;> subst hs <;>
    simp only [] <;>
    rcases hput : PutObjectFromFile env _ (storageKey env.unicodeLower l.Host l.Path)
      (localFilename env.unicodeLower opts.Workspace l.Path) with ⟨w2, _ | e⟩ <;>
    simp only [runDeferred, exit]
  · exact ⟨[Event.log [go "done"]], by simp, by simpa using hnp, by simp, by simp⟩
  · refine ⟨[Event.log [go "exited with error:", e.Error], Event.osExit 1], by simp,
      by simpa using hnp, by simp, ?_⟩
    intro e2 he2
    simp only [Option.some.injEq] at he2
    subst he2
    exact ⟨trivial, by simpa using hnd, List.suffix_refl _⟩
  · exact ⟨[Event.log [go "done"], Event.closeBody,
      Event.closeFile (localFilename env.unicodeLower opts.Workspace l.Path),
      Event.remove (localFilename env.unicodeLower opts.Workspace l.Path)], by simp,
      by simpa using hnp, by simp, by simp⟩
  · refine ⟨[Event.closeBody,
      Event.closeFile (localFilename env.unicodeLower opts.Workspace l.Path),
      Event.remove (localFilename env.unicodeLower opts.Workspace l.Path),
      Event.log [go "exited with error:", e.Error], Event.osExit 1], by simp,
      by simpa using hnp, by simp, ?_⟩
    intro e2 he2
    simp only [Option.some.injEq] at he2
    subst he2
    exact ⟨trivial, by simpa using hnd, ⟨[Event.closeBody,
      Event.closeFile (localFilename env.unicodeLower opts.Workspace l.Path),
      Event.remove (localFilename env.unicodeLower opts.Workspace l.Path)], rfl⟩⟩

/-- Witness of C10, amended: the example run on a world whose cache path has
a file, with an upload that fails. -/
theorem main_logs_url_before_upload_witness :
    main_configure (exampleEnv ⟨200, go "data", none⟩ (some (GoError.other (go "boom"))))
        = .ready exampleOptions exampleURL exampleLocation exampleConfigureTrace ∧
      (PutObjectFromFile (exampleEnv ⟨200, go "data", none⟩ (some (GoError.other (go "boom"))))
          cachedWorld (storageKey (fun s => s) exampleURL.Host exampleURL.Path)
          (localFilename (fun s => s) exampleOptions.Workspace exampleURL.Path)).2
        = some (GoError.other (go "boom")) ∧
      ∃ post,
        (main (exampleEnv ⟨200, go "data", none⟩ (some (GoError.other (go "boom"))))
            cachedWorld).trace
          = (exampleConfigureTrace ++ [Event.log [go "local file:",
                localFilename (fun s => s) exampleOptions.Workspace exampleURL.Path]]
              ++ [Event.stat (localFilename (fun s => s) exampleOptions.Workspace exampleURL.Path)])
            ++ [Event.log [go "remote file:", publicURL exampleOptions.OSSPublicURL
                  (storageKey (fun s => s) exampleURL.Host exampleURL.Path)],
                Event.putObject (storageKey (fun s => s) exampleURL.Host exampleURL.Path)
                  (localFilename (fun s => s) exampleOptions.Workspace exampleURL.Path)]
            ++ post :=
  have h := main_logs_url_before_upload
    (exampleEnv ⟨200, go "data", none⟩ (some (GoError.other (go "boom")))) cachedWorld
    exampleOptions exampleURL exampleLocation exampleConfigureTrace
    ⟨cachedWorld, exampleConfigureTrace ++ [Event.log [go "local file:",
        localFilename (fun s => s) exampleOptions.Workspace exampleURL.Path]]
      ++ [Event.stat (localFilename (fun s => s) exampleOptions.Workspace exampleURL.Path)],
      [Deferred.exit]⟩
    (example_configure _ _) rfl
  ⟨example_configure _ _, by decide, h.imp (fun _ hp => hp.1)⟩

/-- Counterexample to C10 as stated: a run whose upload fails with the error
`boom`; the public URL line is in its trace, logged before the upload was
attempted, and the run ends with that error and exit status 1. -/
theorem main_logs_url_of_failed_upload :
    (main (exampleEnv ⟨200, go "data", none⟩ (some (GoError.other (go "boom"))))
        cachedWorld).trace
      = exampleConfigureTrace ++
          [Event.log [go "local file:", go "/ws/my_file.png"],
           Event.stat (go "/ws/my_file.png"),
           Event.log [go "remote file:",
             go "https://pub.example.com/cdn.example.com/assets/my_file.png"],
           Event.putObject (go "cdn.example.com/assets/my_file.png") (go "/ws/my_file.png"),
           Event.log [go "exited with error:", go "boom"],
           Event.osExit 1] ∧
      (main (exampleEnv ⟨200, go "data", none⟩ (some (GoError.other (go "boom"))))
        cachedWorld).exitCode = 1 ∧
      (main (exampleEnv ⟨200, go "data", none⟩ (some (GoError.other (go "boom"))))
        cachedWorld).world.objects (go "cdn.example.com/assets/my_file.png") = none := by
  decide

end Remote2oss
